import Mathlib

/-!
Verification of the email generator (src/email_generator.py).

The program is embedded shallowly over `List Char`: Python strings become
character lists, and the Python string primitives used by the source
(`strip`, `in`, `rfind`, `split(sep)[0]`, `rsplit(sep, 1)`, slicing,
`lower`) are defined below with Python's semantics.  The network-facing
retry loop of `generate_application_email` is embedded as a pure function
`dispatch` over a list of per-attempt API outcomes, and the `__main__`
CLI block as `cliMain` over an argument vector and an abstract file
system.
-/

/-! ### Python string primitives -/

/-- Python's whitespace set for `str.strip` (ASCII part; the inputs of
interest are ASCII). -/
def isSpaceChar (c : Char) : Bool :=
  c == ' ' || c == '\t' || c == '\n' || c == '\r' || c == '\x0b' || c == '\x0c'

/-- Python `s.strip()`: drop whitespace from both ends. -/
def pyStrip (s : List Char) : List Char :=
  ((s.dropWhile isSpaceChar).reverse.dropWhile isSpaceChar).reverse

/-- `leads pat s` holds when `pat` matches at the very start of `s`. -/
def leads : List Char → List Char → Bool
  | [], _ => true
  | _ :: _, [] => false
  | p :: ps, c :: cs => p == c && leads ps cs

/-- Python `pat in s`: `pat` matches at some position of `s`. -/
def occurs (pat : List Char) : List Char → Bool
  | [] => leads pat []
  | c :: t => leads pat (c :: t) || occurs pat t

/-- Python `s.split(pat)[0]`: the text strictly before the first match of
`pat`, or all of `s` when there is none. -/
def takeUntilPat (pat : List Char) : List Char → List Char
  | [] => []
  | c :: t => if leads pat (c :: t) then [] else c :: takeUntilPat pat t

/-- Python `s.rfind(pat)`: index of the last match of `pat` in `s`
(`none` for Python's `-1`). -/
def rfindIdx (pat : List Char) : List Char → Option Nat
  | [] => if leads pat [] then some 0 else none
  | c :: t =>
    match rfindIdx pat t with
    | some i => some (i + 1)
    | none => if leads pat (c :: t) then some 0 else none

/-- Python `s.lower()` (ASCII case mapping, which is all the phrase
matching below needs). -/
def lowerList (s : List Char) : List Char := s.map Char.toLower

/-- Python `s[-n:]`: the last `n` characters (all of `s` when shorter). -/
def lastN (n : Nat) (s : List Char) : List Char := s.drop (s.length - n)

/-- Python `s.rsplit(sep, 1)` when the separator occurs: the pair of the
text before the last match and the text after it; `none` when `sep` does
not occur (Python then returns the one-element list `[s]`). -/
def rsplitLast (sep s : List Char) : Option (List Char × List Char) :=
  match rfindIdx sep s with
  | none => none
  | some i => some (s.take i, s.drop (i + sep.length))

/-! ### Constants of email_generator.py -/

/-- `MANDATORY_CLOSING_LINE` (line 14). -/
def MANDATORY_CLOSING_LINE : List Char :=
  ("I am available to join immediately, as I have completed all my academic coursework.").toList

/-- `CLOSING_BLOCK` (lines 15-25), the concatenation of adjacent string
literals exactly as the source builds it; note it starts with a blank
line of its own. -/
def CLOSING_BLOCK : List Char :=
  ("\n\n").toList ++
  MANDATORY_CLOSING_LINE ++ ("\n\n").toList ++
  ("Best regards,\n").toList ++
  ("Abhinav Prasad\n").toList ++
  ("Email: abhinavprasad2004ap@gmail.com\n").toList ++
  ("Phone: 8989625663\n").toList ++
  ("LinkedIn: https://www.linkedin.com/in/abhinav-prasad-0a894b251/\n").toList ++
  ("GitHub: https://github.com/Abhii242004").toList

/-- `stop_phrase` (line 99). -/
def stopPhrase : List Char := ("---END-OF-BODY---").toList

/-- `common_closings` (line 106), in source order. -/
def common_closings : List (List Char) :=
  [("Best regards,").toList, ("Sincerely,").toList, ("Thank you,").toList,
   ("I look forward to hearing from you.").toList]

/-- The `"\n\n"` separator appended at line 126 (also the split separator
of line 121). -/
def nl2 : List Char := ('\n' :: '\n' :: [])

/-! ### The response sanitizer (lines 98-129) -/

/-- Lines 99-101: if the stop phrase occurs, keep the (stripped) text
before its first occurrence. -/
def primaryCut (s : List Char) : List Char :=
  if occurs stopPhrase s then pyStrip (takeUntilPat stopPhrase s) else s

/-- Lines 109-114: walk the closing phrases in order; on the first phrase
whose last case-insensitive occurrence starts within 200 characters of
the end, keep the stripped text before it and stop. -/
def secondaryGo : List (List Char) → List Char → List Char
  | [], s => s
  | c :: rest, s =>
    match rfindIdx (lowerList c) (lowerList s) with
    | some i =>
      if s.length - i < 200 then pyStrip (s.take i) else secondaryGo rest s
    | none => secondaryGo rest s

/-- Lines 118-123: when an `@` sits in the last 100 characters, split at
the last blank line and drop the second part when it holds `@` or `+`. -/
def contactCut (s : List Char) : List Char :=
  if occurs (("@").toList) (lastN 100 s) then
    match rsplitLast nl2 s with
    | some (p0, p1) =>
      if occurs (("@").toList) p1 || occurs (("+").toList) p1 then pyStrip p0
      else s
    | none => s
  else s

/-- The body after all three cleanup passes (lines 98-123). -/
def sanitizedBody (raw : List Char) : List Char :=
  contactCut (secondaryGo common_closings (primaryCut raw))

/-- Lines 125-129: append the separator and the closing block. -/
def sanitize (raw : List Char) : List Char :=
  (sanitizedBody raw ++ nl2) ++ CLOSING_BLOCK

/-! ### The request dispatcher (lines 71-142) -/

/-- Outcome of one `requests.post` attempt: `httpError s` for a response
on which `raise_for_status` raises (status `s`), `netError` for any other
exception out of the request or JSON decoding, and `ok c` for a decoded
response whose extracted `content` field is `c` (`none` when the field is
missing or null). -/
inductive ApiResponse where
  | httpError (status : Nat)
  | netError
  | ok (content : Option (List Char))

/-- The retry loop of lines 76-142.  `fuel` counts the iterations left of
`for i in range(max_retries)` (so attempt `i` runs with `fuel = 4 - i`,
and the guard `i < max_retries - 1` is `fuel - 1 != 0`); `d` is
`last_delay`.  Returns the function's result together with the list of
`time.sleep` delays performed, in order. -/
def dispatch : Nat → Nat → List ApiResponse → Option (List Char) × List Nat
  | 0, _, _ => (none, [])
  | _ + 1, _, [] => (none, [])
  | fuel + 1, d, r :: rs =>
    match r with
    | .ok (some c) => if c.isEmpty then (none, []) else (some (sanitize c), [])
    | .ok none => (none, [])
    | .netError => (none, [])
    | .httpError s =>
      if s == 429 && fuel != 0 then
        let p := dispatch fuel (d * 2) rs
        (p.1, d :: p.2)
      else (none, [])

/-- `generate_application_email`, abstracted over the per-attempt API
outcomes: `max_retries = 4`, `last_delay` starts at `1` (lines 71-72). -/
def generate_application_email (resp : List ApiResponse) :
    Option (List Char) × List Nat :=
  dispatch 4 1 resp

/-! ### The CLI block (lines 144-169) -/

/-- What the `__main__` block does before printing: either it exits with
status 1 ahead of any network activity, or it reaches the call to
`generate_application_email` with the two stripped file contents. -/
inductive CliResult where
  | usageExit
  | callsApi (jd resume : List Char)
deriving DecidableEq

/-- Lines 144-169: argument-count check, the two guarded file reads
(`none` models `FileNotFoundError`), the `strip()` of each content, and
the emptiness check.  `argv` is the full `sys.argv`, script name
included. -/
def cliMain (argv : List (List Char)) (fs : List Char → Option (List Char)) :
    CliResult :=
  if argv.length < 3 then .usageExit
  else
    match fs (argv.getD 1 []) with
    | none => .usageExit
    | some jdRaw =>
      match fs (argv.getD 2 []) with
      | none => .usageExit
      | some resumeRaw =>
        let jd := pyStrip jdRaw
        let rd := pyStrip resumeRaw
        if jd.isEmpty || rd.isEmpty then .usageExit else .callsApi jd rd

/-- `sub` occupies one contiguous run of `s`. -/
def isSubseg (sub s : List Char) : Prop := ∃ u v, u ++ sub ++ v = s

/-! ### Basic facts about the string primitives -/

theorem leads_nil_false (pat : List Char) (h : pat ≠ []) : leads pat [] = false := by
  cases pat with
  | nil => exact absurd rfl h
  | cons p ps => rfl

theorem occurs_nil_pat (s : List Char) : occurs [] s = true := by
  cases s with
  | nil => rfl
  | cons c t => rfl

theorem leads_append (pat l v : List Char) (h : leads pat l = true) :
    leads pat (l ++ v) = true := by
  induction pat generalizing l with
  | nil => rfl
  | cons p ps ih =>
    cases l with
    | nil => simp [leads] at h
    | cons c cs =>
      simp [leads] at h ⊢
      exact ⟨h.1, ih cs h.2⟩

theorem takeUntilPat_append (pat s : List Char) :
    ∃ u, takeUntilPat pat s ++ u = s := by
  induction s with
  | nil => exact ⟨[], rfl⟩
  | cons c t ih =>
    cases hl : leads pat (c :: t) with
    | true => exact ⟨c :: t, by simp [takeUntilPat, hl]⟩
    | false =>
      obtain ⟨u, hu⟩ := ih
      exact ⟨u, by simp [takeUntilPat, hl, hu]⟩

theorem occurs_takeUntilPat (pat : List Char) (hne : pat ≠ []) (s : List Char) :
    occurs pat (takeUntilPat pat s) = false := by
  induction s with
  | nil => simp [takeUntilPat, occurs, leads_nil_false pat hne]
  | cons c t ih =>
    cases hl : leads pat (c :: t) with
    | true => simp [takeUntilPat, hl, occurs, leads_nil_false pat hne]
    | false =>
      obtain ⟨u, hu⟩ := takeUntilPat_append pat t
      have hcons : leads pat (c :: takeUntilPat pat t) = false := by
        cases hcl : leads pat (c :: takeUntilPat pat t) with
        | false => rfl
        | true =>
          have hext := leads_append pat (c :: takeUntilPat pat t) u hcl
          rw [List.cons_append, hu] at hext
          rw [hext] at hl
          exact absurd hl (by simp)
      simp [takeUntilPat, hl, occurs, hcons, ih]

theorem occurs_append_right (pat l v : List Char) (h : occurs pat l = true) :
    occurs pat (l ++ v) = true := by
  induction l with
  | nil =>
    have : pat = [] := by
      cases pat with
      | nil => rfl
      | cons p ps => simp [occurs, leads] at h
    subst this
    simpa using occurs_nil_pat v
  | cons c t ih =>
    simp only [occurs, Bool.or_eq_true] at h
    cases h with
    | inl h =>
      have := leads_append pat (c :: t) v h
      simp only [List.cons_append] at this ⊢
      simp [occurs, this]
    | inr h =>
      simp only [List.cons_append, occurs, Bool.or_eq_true]
      exact Or.inr (ih h)

theorem occurs_append_left (pat u m : List Char) (h : occurs pat m = true) :
    occurs pat (u ++ m) = true := by
  induction u with
  | nil => simpa using h
  | cons a t ih =>
    simp only [List.cons_append, occurs, Bool.or_eq_true]
    exact Or.inr ih

theorem subseg_refl (s : List Char) : isSubseg s s := ⟨[], [], by simp⟩

theorem subseg_trans {a b c : List Char} (h1 : isSubseg a b) (h2 : isSubseg b c) :
    isSubseg a c := by
  obtain ⟨u1, v1, hb⟩ := h1
  obtain ⟨u2, v2, hc⟩ := h2
  refine ⟨u2 ++ u1, v1 ++ v2, ?_⟩
  rw [← hc, ← hb]
  simp [List.append_assoc]

theorem occurs_subseg {pat sub s : List Char} (hsub : isSubseg sub s)
    (h : occurs pat sub = true) : occurs pat s = true := by
  obtain ⟨u, v, rfl⟩ := hsub
  rw [List.append_assoc]
  exact occurs_append_left pat u _ (occurs_append_right pat sub v h)

theorem not_occurs_subseg {pat sub s : List Char} (hsub : isSubseg sub s)
    (h : occurs pat s = false) : occurs pat sub = false := by
  cases hx : occurs pat sub with
  | false => rfl
  | true => rw [occurs_subseg hsub hx] at h; exact absurd h (by simp)

theorem dropWhile_suffix_ex (p : Char → Bool) (s : List Char) :
    ∃ u, u ++ List.dropWhile p s = s := by
  induction s with
  | nil => exact ⟨[], rfl⟩
  | cons c t ih =>
    cases hpc : p c with
    | true =>
      obtain ⟨u, hu⟩ := ih
      exact ⟨c :: u, by simp [List.dropWhile, hpc, hu]⟩
    | false => exact ⟨[], by simp [List.dropWhile, hpc]⟩

theorem pyStrip_subseg (s : List Char) : isSubseg (pyStrip s) s := by
  obtain ⟨u, hu⟩ := dropWhile_suffix_ex isSpaceChar s
  obtain ⟨w, hw⟩ := dropWhile_suffix_ex isSpaceChar (s.dropWhile isSpaceChar).reverse
  refine ⟨u, w.reverse, ?_⟩
  have ha : pyStrip s ++ w.reverse = s.dropWhile isSpaceChar := by
    have h2 := congrArg List.reverse hw
    rw [List.reverse_append, List.reverse_reverse] at h2
    exact h2
  rw [List.append_assoc, ha, hu]

theorem take_subseg (s : List Char) (i : Nat) : isSubseg (s.take i) s :=
  ⟨[], s.drop i, by simp⟩

theorem pyStrip_take_subseg (s : List Char) (i : Nat) :
    isSubseg (pyStrip (s.take i)) s :=
  subseg_trans (pyStrip_subseg _) (take_subseg s i)

/-- A match of `pat` on `l ++ r` that does not fit inside `l` commits a
nonempty tail of `pat` to the start of `r`. -/
theorem leads_overshoot (pat l r : List Char) (h : leads pat (l ++ r) = true)
    (hl : leads pat l = false) :
    ∃ q, q ≠ [] ∧ leads q r = true ∧ ∀ a ∈ q, a ∈ pat := by
  induction pat generalizing l with
  | nil => simp [leads] at hl
  | cons p ps ih =>
    cases l with
    | nil =>
      exact ⟨p :: ps, List.cons_ne_nil p ps, h, fun a ha => ha⟩
    | cons c l' =>
      simp only [List.cons_append, leads, Bool.and_eq_true, beq_iff_eq] at h
      have hpl : leads ps l' = false := by
        cases hx : leads ps l' with
        | false => rfl
        | true => simp [leads, h.1, hx] at hl
      obtain ⟨q, hq1, hq2, hq3⟩ := ih l' h.2 hpl
      exact ⟨q, hq1, hq2, fun a ha => List.mem_cons_of_mem p (hq3 a ha)⟩

/-- If `pat` misses both `l` and `r`, and the first character of `r` does
not occur in `pat` at all, then `pat` also misses `l ++ r`: no match can
straddle the boundary. -/
theorem occurs_append_sep (pat l : List Char) (c : Char) (r' : List Char)
    (hc : c ∉ pat) (hl : occurs pat l = false)
    (hr : occurs pat (c :: r') = false) :
    occurs pat (l ++ c :: r') = false := by
  induction l with
  | nil => simpa using hr
  | cons a t ih =>
    simp only [occurs, Bool.or_eq_false_iff] at hl
    have htail : occurs pat (t ++ c :: r') = false := ih hl.2
    have hhead : leads pat (a :: (t ++ c :: r')) = false := by
      cases hx : leads pat (a :: (t ++ c :: r')) with
      | false => rfl
      | true =>
        have hx' : leads pat ((a :: t) ++ c :: r') = true := by
          simpa using hx
        obtain ⟨q, hq1, hq2, hq3⟩ := leads_overshoot pat (a :: t) (c :: r') hx' hl.1
        cases q with
        | nil => exact absurd rfl hq1
        | cons b q' =>
          simp only [leads, Bool.and_eq_true, beq_iff_eq] at hq2
          exact absurd (hq2.1 ▸ hq3 b (List.mem_cons_self b q')) hc
    show (leads pat (a :: (t ++ c :: r')) || occurs pat (t ++ c :: r')) = false
    rw [hhead, htail]
    rfl

/-! ### Each sanitizer pass only keeps a contiguous run of its input -/

theorem primaryCut_subseg (raw : List Char) : isSubseg (primaryCut raw) raw := by
  unfold primaryCut
  split
  · obtain ⟨u, hu⟩ := takeUntilPat_append stopPhrase raw
    exact subseg_trans (pyStrip_subseg _) ⟨[], u, by simpa using hu⟩
  · exact subseg_refl raw

theorem secondaryGo_subseg (cl : List (List Char)) (s : List Char) :
    isSubseg (secondaryGo cl s) s := by
  induction cl with
  | nil => exact subseg_refl s
  | cons c rest ih =>
    unfold secondaryGo
    split
    · split
      · exact pyStrip_take_subseg s _
      · exact ih
    · exact ih

theorem rsplitLast_eq (sep s p0 p1 : List Char)
    (h : rsplitLast sep s = some (p0, p1)) :
    ∃ i, rfindIdx sep s = some i ∧ p0 = s.take i ∧ p1 = s.drop (i + sep.length) := by
  unfold rsplitLast at h
  cases hr : rfindIdx sep s with
  | none => rw [hr] at h; exact absurd h (by simp)
  | some i =>
    rw [hr] at h
    simp only [Option.some.injEq, Prod.mk.injEq] at h
    exact ⟨i, rfl, h.1.symm, h.2.symm⟩

theorem contactCut_subseg (s : List Char) : isSubseg (contactCut s) s := by
  unfold contactCut
  split
  · split
    · rename_i p0 p1 hsp
      split
      · obtain ⟨i, _, hp0, _⟩ := rsplitLast_eq nl2 s p0 p1 hsp
        rw [hp0]
        exact pyStrip_take_subseg s i
      · exact subseg_refl s
    · exact subseg_refl s
  · exact subseg_refl s

/-- The two heuristic passes combined keep a contiguous run of their
input. -/
theorem cuts_subseg (s : List Char) :
    isSubseg (contactCut (secondaryGo common_closings s)) s :=
  subseg_trans (contactCut_subseg _) (secondaryGo_subseg _ _)

/-! ### Semantics of rfindIdx -/

theorem rfindIdx_leads (pat : List Char) :
    ∀ (t : List Char) (i : Nat), rfindIdx pat t = some i →
      leads pat (t.drop i) = true := by
  intro t
  induction t with
  | nil =>
    intro i h
    unfold rfindIdx at h
    split at h
    · rename_i hl
      cases h
      exact hl
    · exact absurd h (by simp)
  | cons c t ih =>
    intro i h
    unfold rfindIdx at h
    split at h
    · rename_i j hj
      cases h
      exact ih j hj
    · split at h
      · rename_i hl
        cases h
        exact hl
      · exact absurd h (by simp)

theorem rfindIdx_none_no_leads (pat : List Char) :
    ∀ (t : List Char), rfindIdx pat t = none →
      ∀ k, leads pat (t.drop k) = false := by
  intro t
  induction t with
  | nil =>
    intro h k
    unfold rfindIdx at h
    split at h
    · exact absurd h (by simp)
    · rename_i hl
      simpa [List.drop_nil] using (Bool.not_eq_true _).mp hl
  | cons c t ih =>
    intro h k
    unfold rfindIdx at h
    split at h
    · exact absurd h (by simp)
    · rename_i heq
      split at h
      · exact absurd h (by simp)
      · rename_i hl
        cases k with
        | zero => simpa using (Bool.not_eq_true _).mp hl
        | succ k' => simpa using ih heq k'

theorem rfindIdx_last (pat : List Char) (hne : pat ≠ []) :
    ∀ (t : List Char) (i : Nat), rfindIdx pat t = some i →
      ∀ j, i < j → leads pat (t.drop j) = false := by
  intro t
  induction t with
  | nil =>
    intro i h
    rw [rfindIdx, if_neg (by simp [leads_nil_false pat hne])] at h
    exact absurd h (by simp)
  | cons c t ih =>
    intro i h j hj
    unfold rfindIdx at h
    split at h
    · rename_i i' hi'
      cases h
      cases j with
      | zero => exact absurd hj (by omega)
      | succ j' => simpa using ih i' hi' j' (by omega)
    · rename_i heq
      split at h
      · cases h
        cases j with
        | zero => exact absurd hj (by omega)
        | succ j' => simpa using rfindIdx_none_no_leads pat t heq j'
      · exact absurd h (by simp)

/-! ### The guard of the secondary cut, as the source computes it -/

/-- For each phrase of `cl`, its last case-insensitive occurrence in `s`
(if any) starts at least 200 characters from the end, so line 112's guard
rejects it. -/
def noCloseCut (cl : List (List Char)) (s : List Char) : Bool :=
  cl.all fun c =>
    match rfindIdx (lowerList c) (lowerList s) with
    | none => true
    | some i => decide (200 ≤ s.length - i)

theorem secondaryGo_skip (cl : List (List Char)) (s : List Char)
    (h : noCloseCut cl s = true) : secondaryGo cl s = s := by
  induction cl with
  | nil => rfl
  | cons c rest ih =>
    simp only [noCloseCut, List.all_cons, Bool.and_eq_true] at h
    have ih' := ih (by simpa [noCloseCut] using h.2)
    unfold secondaryGo
    cases hr : rfindIdx (lowerList c) (lowerList s) with
    | none => exact ih'
    | some i =>
      have hfar : 200 ≤ s.length - i := by
        rw [hr] at h
        exact of_decide_eq_true h.1
      show (if s.length - i < 200 then pyStrip (s.take i)
            else secondaryGo rest s) = s
      rw [if_neg (by omega)]
      exact ih'

theorem secondaryGo_cut (before : List (List Char)) (c : List Char)
    (rest : List (List Char)) (s : List Char) (i : Nat)
    (hb : noCloseCut before s = true)
    (hc : rfindIdx (lowerList c) (lowerList s) = some i)
    (hnear : s.length - i < 200) :
    secondaryGo (before ++ c :: rest) s = pyStrip (s.take i) := by
  induction before with
  | nil =>
    show secondaryGo (c :: rest) s = pyStrip (s.take i)
    unfold secondaryGo
    rw [hc]
    exact if_pos hnear
  | cons p before' ih =>
    simp only [noCloseCut, List.all_cons, Bool.and_eq_true] at hb
    have ih' := ih (by simpa [noCloseCut] using hb.2)
    show secondaryGo (p :: (before' ++ c :: rest)) s = pyStrip (s.take i)
    unfold secondaryGo
    cases hr : rfindIdx (lowerList p) (lowerList s) with
    | none => exact ih'
    | some k =>
      have hfar : 200 ≤ s.length - k := by
        rw [hr] at hb
        exact of_decide_eq_true hb.1
      show (if s.length - k < 200 then pyStrip (s.take k)
            else secondaryGo (before' ++ c :: rest) s) = pyStrip (s.take i)
      rw [if_neg (by omega)]
      exact ih'

/-! ### Single-character occurrence is membership -/

theorem occurs_singleton (a : Char) (l : List Char) :
    occurs (a :: []) l = true ↔ a ∈ l := by
  induction l with
  | nil => simp [occurs, leads]
  | cons c t ih =>
    simp [occurs, leads, ih, List.mem_cons, Bool.or_eq_true]

/-- Every present result of the retry loop is a sanitized model output. -/
theorem dispatch_some (fuel : Nat) :
    ∀ (d : Nat) (resp : List ApiResponse) (e : List Char) (sl : List Nat),
      dispatch fuel d resp = (some e, sl) → ∃ c, e = sanitize c := by
  induction fuel with
  | zero =>
    intro d resp e sl h
    simp [dispatch] at h
  | succ fuel ih =>
    intro d resp e sl h
    cases resp with
    | nil => simp [dispatch] at h
    | cons r rs =>
      cases r with
      | ok content =>
        cases content with
        | none => simp [dispatch] at h
        | some c =>
          by_cases hce : c.isEmpty
          · simp [dispatch, hce] at h
          · simp only [dispatch] at h
            rw [if_neg hce] at h
            exact ⟨c, (Option.some.inj (congrArg Prod.fst h)).symm⟩
      | netError => simp [dispatch] at h
      | httpError st =>
        by_cases hcond : (st == 429 && fuel != 0) = true
        · simp only [dispatch] at h
          rw [if_pos hcond] at h
          have h1 : (dispatch fuel (d * 2) rs).1 = some e :=
            congrArg Prod.fst h
          exact ih (d * 2) rs e (dispatch fuel (d * 2) rs).2 (by rw [← h1])
        · simp only [dispatch] at h
          rw [if_neg hcond] at h
          exact absurd (congrArg Prod.fst h) (by simp)

/-! ### Claims -/

/-- C1: whenever `generate_application_email` returns a result at all,
that result ends with the fixed `CLOSING_BLOCK` verbatim — for every
sequence of API outcomes, hence for empty or adversarial model output
(those never reach the success path with different trailers: every
returned string is `sanitize` of some raw output, which by construction
ends in `CLOSING_BLOCK`). -/
theorem finalEmail_endsWith_closing (resp : List ApiResponse)
    (e : List Char) (sl : List Nat)
    (h : generate_application_email resp = (some e, sl)) :
    ∃ t, e = t ++ CLOSING_BLOCK := by
  obtain ⟨c, rfl⟩ := dispatch_some 4 1 resp e sl h
  exact ⟨sanitizedBody c ++ nl2, rfl⟩

theorem finalEmail_endsWith_closing_witness :
    ∃ t, sanitize (("x").toList) = t ++ CLOSING_BLOCK :=
  finalEmail_endsWith_closing [.ok (some (("x").toList))]
    (sanitize (("x").toList)) [] rfl

/-- C2: three straight 429 responses followed by a success make the
dispatcher sleep 1, 2 and 4 seconds and then succeed on the 4th attempt;
four straight 429 responses exhaust the 4-attempt budget and yield no
result (whatever responses would follow), after the same three sleeps. -/
theorem backoff_retry (c : List Char) (hc : c ≠ [])
    (rs rs' : List ApiResponse) :
    dispatch 4 1
        ([.httpError 429, .httpError 429, .httpError 429, .ok (some c)] ++ rs)
      = (some (sanitize c), [1, 2, 4])
    ∧ dispatch 4 1
        ([.httpError 429, .httpError 429, .httpError 429, .httpError 429] ++ rs')
      = (none, [1, 2, 4]) := by
  constructor
  · cases c with
    | nil => exact absurd rfl hc
    | cons a t => rfl
  · rfl

theorem backoff_retry_witness :
    dispatch 4 1
        ([.httpError 429, .httpError 429, .httpError 429,
          .ok (some (("x").toList))] ++ [])
      = (some (sanitize (("x").toList)), [1, 2, 4])
    ∧ dispatch 4 1
        ([.httpError 429, .httpError 429, .httpError 429, .httpError 429] ++ [])
      = (none, [1, 2, 4]) :=
  backoff_retry (("x").toList) (by decide) [] []

/-- C3 (counterexample to the claim as stated): on this input the text
before the stop marker itself ends in "Best regards,", so the secondary
cut removes it and the sanitized body is not the trimmed pre-marker
text. -/
theorem stopMarker_scope_cx :
    occurs stopPhrase (("Best regards,---END-OF-BODY---x").toList) = true
    ∧ sanitizedBody (("Best regards,---END-OF-BODY---x").toList)
        ≠ pyStrip (takeUntilPat stopPhrase
            (("Best regards,---END-OF-BODY---x").toList)) :=
  ⟨by decide, by decide⟩

set_option maxRecDepth 20000 in
/-- C3 (amended): for raw output containing the stop marker, the
sanitized body is the result of the remaining passes applied to the
trimmed text before the marker's first occurrence (so nothing at or
after the marker influences the result), and the stop marker never
occurs in the final email. -/
theorem stopMarker_scope (raw : List Char)
    (h : occurs stopPhrase raw = true) :
    sanitizedBody raw
      = contactCut (secondaryGo common_closings
          (pyStrip (takeUntilPat stopPhrase raw)))
    ∧ occurs stopPhrase (sanitize raw) = false := by
  have hpc : primaryCut raw = pyStrip (takeUntilPat stopPhrase raw) := by
    simp [primaryCut, h]
  refine ⟨by rw [sanitizedBody, hpc], ?_⟩
  have hcut : occurs stopPhrase (primaryCut raw) = false := by
    rw [hpc]
    exact not_occurs_subseg (pyStrip_subseg _)
      (occurs_takeUntilPat stopPhrase (by decide) raw)
  have hbody : occurs stopPhrase (sanitizedBody raw) = false :=
    not_occurs_subseg (cuts_subseg (primaryCut raw)) hcut
  have hassoc : sanitize raw
      = sanitizedBody raw ++ ('\n' :: ('\n' :: CLOSING_BLOCK)) := by
    rw [sanitize, List.append_assoc]
    rfl
  rw [hassoc]
  exact occurs_append_sep stopPhrase (sanitizedBody raw) '\n'
    ('\n' :: CLOSING_BLOCK) (by decide) hbody (by decide)

theorem stopMarker_scope_witness :
    sanitizedBody (("Body.---END-OF-BODY---junk").toList)
      = contactCut (secondaryGo common_closings
          (pyStrip (takeUntilPat stopPhrase
            (("Body.---END-OF-BODY---junk").toList))))
    ∧ occurs stopPhrase (sanitize (("Body.---END-OF-BODY---junk").toList))
        = false :=
  stopMarker_scope (("Body.---END-OF-BODY---junk").toList) (by decide)

/-- C4 (counterexample to the claim as stated): `" hello "` triggers
none of the three cuts, yet the sanitized body is not the
whitespace-trimmed raw output — when no cut fires the code never strips
the text, so the surrounding whitespace survives. -/
theorem untouched_body_cx :
    occurs stopPhrase ((" hello ").toList) = false
    ∧ noCloseCut common_closings ((" hello ").toList) = true
    ∧ occurs (("@").toList) (lastN 100 ((" hello ").toList)) = false
    ∧ sanitize ((" hello ").toList)
        ≠ (pyStrip ((" hello ").toList) ++ nl2) ++ CLOSING_BLOCK :=
  ⟨by decide, by decide, by decide, by decide⟩

/-- C4 (amended): when the stop marker does not occur, no closing phrase
has a case-insensitive last occurrence within 200 characters of the end,
and no `@` sits in the last 100 characters, the sanitized body is the
raw model output completely unchanged (in particular not trimmed),
followed by the separator and the closing block. -/
theorem untouched_body (raw : List Char)
    (h1 : occurs stopPhrase raw = false)
    (h2 : noCloseCut common_closings raw = true)
    (h3 : occurs (("@").toList) (lastN 100 raw) = false) :
    sanitize raw = (raw ++ nl2) ++ CLOSING_BLOCK := by
  have hp : primaryCut raw = raw := by simp [primaryCut, h1]
  have hs : secondaryGo common_closings raw = raw := secondaryGo_skip _ _ h2
  have hcc : contactCut raw = raw := by
    unfold contactCut
    rw [if_neg (by rw [h3]; simp)]
  rw [sanitize, sanitizedBody, hp, hs, hcc]

theorem untouched_body_witness :
    sanitize (("Hello there").toList)
      = ((("Hello there").toList ++ nl2) ++ CLOSING_BLOCK) :=
  untouched_body (("Hello there").toList) (by decide) (by decide) (by decide)

set_option maxRecDepth 20000 in
/-- C5: the final email is exactly the sanitized body, then the one
appended blank line (two newline characters, line 126), then the fixed
`CLOSING_BLOCK` (line 129); and `CLOSING_BLOCK` is the fixed text built
from its own leading blank line, the mandatory availability line,
"Best regards,", the fixed name, and the fixed contact lines. -/
theorem closing_appended (raw : List Char) :
    sanitize raw = (sanitizedBody raw ++ nl2) ++ CLOSING_BLOCK
    ∧ CLOSING_BLOCK
        = ("\n\n").toList ++ MANDATORY_CLOSING_LINE
          ++ ("\n\nBest regards,\nAbhinav Prasad\nEmail: abhinavprasad2004ap@gmail.com\nPhone: 8989625663\nLinkedIn: https://www.linkedin.com/in/abhinav-prasad-0a894b251/\nGitHub: https://github.com/Abhii242004").toList :=
  ⟨rfl, by decide⟩

/-- C6: the meaning of the secondary cut.  First two conjuncts pin down
`rfindIdx` as the *last* match (a match starts at the returned index and
none starts later); the third states that when every earlier phrase's
last occurrence is 200 or more characters from the end and phrase `c`'s
last case-insensitive occurrence is strictly within 200, the scan cuts
before that occurrence, trims, and ignores all later phrases (the result
does not depend on `rest`); the fourth states that when no phrase
qualifies the text is unchanged. -/
theorem signoff_cut_policy :
    (∀ pat t i, rfindIdx pat t = some i → leads pat (t.drop i) = true)
    ∧ (∀ (pat : List Char), pat ≠ [] → ∀ t i, rfindIdx pat t = some i →
        ∀ j, i < j → leads pat (t.drop j) = false)
    ∧ (∀ before c rest s i, noCloseCut before s = true →
        rfindIdx (lowerList c) (lowerList s) = some i →
        s.length - i < 200 →
        secondaryGo (before ++ c :: rest) s = pyStrip (s.take i))
    ∧ (∀ cl s, noCloseCut cl s = true → secondaryGo cl s = s) :=
  ⟨rfindIdx_leads, fun pat hne => rfindIdx_last pat hne,
   secondaryGo_cut, secondaryGo_skip⟩

theorem signoff_cut_policy_witness :
    secondaryGo common_closings (("Hello team\n\nsincerely,\nBob").toList)
      = pyStrip ((("Hello team\n\nsincerely,\nBob").toList).take 12) :=
  signoff_cut_policy.2.2.1 [("Best regards,").toList] (("Sincerely,").toList)
    [("Thank you,").toList, ("I look forward to hearing from you.").toList]
    (("Hello team\n\nsincerely,\nBob").toList) 12 (by decide) (by decide)
    (by decide)

/-- C7: the contact-block heuristic fires exactly when `@` is in the
last 100 characters; it splits at the last blank-line separator, keeps
the trimmed first part iff a second part exists and holds `@` or `+`,
and otherwise leaves the text unchanged. -/
theorem contact_block_policy (s : List Char) :
    ('@' ∉ lastN 100 s → contactCut s = s)
    ∧ ('@' ∈ lastN 100 s →
        (rfindIdx nl2 s = none → contactCut s = s)
        ∧ ∀ i, rfindIdx nl2 s = some i →
            (('@' ∈ s.drop (i + 2) ∨ '+' ∈ s.drop (i + 2)) →
              contactCut s = pyStrip (s.take i))
            ∧ ('@' ∉ s.drop (i + 2) → '+' ∉ s.drop (i + 2) →
              contactCut s = s)) := by
  constructor
  · intro hno
    have hocc : occurs (("@").toList) (lastN 100 s) = false := by
      cases hx : occurs (("@").toList) (lastN 100 s) with
      | false => rfl
      | true => exact absurd ((occurs_singleton '@' (lastN 100 s)).mp hx) hno
    unfold contactCut
    rw [if_neg (by rw [hocc]; simp)]
  · intro hyes
    have hocc : occurs (("@").toList) (lastN 100 s) = true :=
      (occurs_singleton '@' (lastN 100 s)).mpr hyes
    constructor
    · intro hnone
      have hsp : rsplitLast nl2 s = none := by
        unfold rsplitLast
        rw [hnone]
      unfold contactCut
      rw [if_pos hocc, hsp]
    · intro i hi
      have hsp : rsplitLast nl2 s = some (s.take i, s.drop (i + 2)) := by
        unfold rsplitLast
        rw [hi]
        rfl
      constructor
      · intro hor
        unfold contactCut
        rw [if_pos hocc, hsp]
        show (if occurs (("@").toList) (s.drop (i + 2))
                || occurs (("+").toList) (s.drop (i + 2)) then
              pyStrip (s.take i) else s) = pyStrip (s.take i)
        cases hor with
        | inl h =>
          have h1 : occurs (("@").toList) (s.drop (i + 2)) = true :=
            (occurs_singleton '@' (s.drop (i + 2))).mpr h
          rw [if_pos (by rw [h1]; simp)]
        | inr h =>
          have h1 : occurs (("+").toList) (s.drop (i + 2)) = true :=
            (occurs_singleton '+' (s.drop (i + 2))).mpr h
          rw [if_pos (by rw [h1]; simp)]
      · intro hna hnp
        have e1 : occurs (("@").toList) (s.drop (i + 2)) = false := by
          cases hx : occurs (("@").toList) (s.drop (i + 2)) with
          | false => rfl
          | true => exact absurd ((occurs_singleton '@' (s.drop (i + 2))).mp hx) hna
        have e2 : occurs (("+").toList) (s.drop (i + 2)) = false := by
          cases hx : occurs (("+").toList) (s.drop (i + 2)) with
          | false => rfl
          | true => exact absurd ((occurs_singleton '+' (s.drop (i + 2))).mp hx) hnp
        unfold contactCut
        rw [if_pos hocc, hsp]
        show (if occurs (("@").toList) (s.drop (i + 2))
                || occurs (("+").toList) (s.drop (i + 2)) then
              pyStrip (s.take i) else s) = s
        rw [if_neg (by rw [e1, e2]; simp)]

theorem contact_block_policy_witness :
    contactCut (("Hi\n\nmail@x.com").toList)
      = pyStrip ((("Hi\n\nmail@x.com").toList).take 2) :=
  (((contact_block_policy (("Hi\n\nmail@x.com").toList)).2
      (by decide)).2 2 (by decide)).1 (by decide)

/-- C8: on any attempt (any remaining fuel), a non-429 HTTP error status
returns the no-result signal at once with no further sleep or retry, and
so do a non-HTTP exception, a missing content field, and an empty
content string — the embedding is a total function, so no exception
reaches the caller. -/
theorem http_error_no_retry (st fuel d : Nat) (rs : List ApiResponse)
    (hst : st ≠ 429) :
    dispatch (fuel + 1) d (.httpError st :: rs) = (none, [])
    ∧ dispatch (fuel + 1) d (.netError :: rs) = (none, [])
    ∧ dispatch (fuel + 1) d (.ok none :: rs) = (none, [])
    ∧ dispatch (fuel + 1) d (.ok (some []) :: rs) = (none, []) := by
  refine ⟨?_, rfl, rfl, rfl⟩
  have hbeq : (st == 429) = false := by simpa using hst
  show (if st == 429 && fuel != 0 then
          ((dispatch fuel (d * 2) rs).1, d :: (dispatch fuel (d * 2) rs).2)
        else (none, [])) = (none, [])
  rw [hbeq]
  rfl

theorem http_error_no_retry_witness :
    dispatch (3 + 1) 1 (.httpError 500 :: []) = (none, [])
    ∧ dispatch (3 + 1) 1 (.netError :: []) = (none, [])
    ∧ dispatch (3 + 1) 1 (.ok none :: []) = (none, [])
    ∧ dispatch (3 + 1) 1 (.ok (some []) :: []) = (none, []) :=
  http_error_no_retry 500 3 1 [] (by decide)

/-- C9: the `__main__` block resolves to the exit-1 path — before any
call to `generate_application_email`, hence before any HTTP activity —
whenever fewer than two positional arguments are given
(`len(sys.argv) < 3`), either file read fails, or either file's
stripped content is empty (in particular an empty resume file). -/
theorem cli_guards (argv : List (List Char))
    (fs : List Char → Option (List Char)) :
    (argv.length < 3 → cliMain argv fs = .usageExit)
    ∧ (fs (argv.getD 1 []) = none → cliMain argv fs = .usageExit)
    ∧ (fs (argv.getD 2 []) = none → cliMain argv fs = .usageExit)
    ∧ (∀ c, fs (argv.getD 1 []) = some c → pyStrip c = [] →
        cliMain argv fs = .usageExit)
    ∧ (∀ c, fs (argv.getD 2 []) = some c → pyStrip c = [] →
        cliMain argv fs = .usageExit) := by
  by_cases hlen : argv.length < 3
  · have h : cliMain argv fs = .usageExit := by
      unfold cliMain
      rw [if_pos hlen]
    exact ⟨fun _ => h, fun _ => h, fun _ => h, fun _ _ _ => h,
      fun _ _ _ => h⟩
  · refine ⟨fun hc => absurd hc hlen, ?_, ?_, ?_, ?_⟩
    · intro h1
      unfold cliMain
      rw [if_neg hlen, h1]
    · intro h2
      unfold cliMain
      rw [if_neg hlen]
      cases h1 : fs (argv.getD 1 []) with
      | none => rfl
      | some jdRaw =>
        rw [h2]
    · intro c hc hstrip
      unfold cliMain
      rw [if_neg hlen, hc]
      cases h2 : fs (argv.getD 2 []) with
      | none => rfl
      | some resumeRaw =>
        show (if (pyStrip c).isEmpty || (pyStrip resumeRaw).isEmpty then
                CliResult.usageExit
              else CliResult.callsApi (pyStrip c) (pyStrip resumeRaw))
            = CliResult.usageExit
        rw [hstrip]
        rfl
    · intro c hc hstrip
      unfold cliMain
      rw [if_neg hlen]
      cases h1 : fs (argv.getD 1 []) with
      | none => rfl
      | some jdRaw =>
        rw [hc]
        show (if (pyStrip jdRaw).isEmpty || (pyStrip c).isEmpty then
                CliResult.usageExit
              else CliResult.callsApi (pyStrip jdRaw) (pyStrip c))
            = CliResult.usageExit
        have hcond : ((pyStrip jdRaw).isEmpty || (pyStrip c).isEmpty) = true := by
          rw [hstrip]
          simp
        rw [if_pos hcond]

theorem cli_guards_witness :
    cliMain [("prog").toList, ("jd.txt").toList, ("resume.txt").toList]
        (fun _ => some (("  ").toList)) = .usageExit :=
  (cli_guards [("prog").toList, ("jd.txt").toList, ("resume.txt").toList]
      (fun _ => some (("  ").toList))).2.2.2.2
    (("  ").toList) rfl (by decide)

/-- C10: on the success path the sanitized body is a contiguous
substring of the raw model output: every pass only truncates at an index
and strips surrounding whitespace, never inserting, duplicating or
reordering characters. -/
theorem body_is_substring (raw : List Char) :
    isSubseg (sanitizedBody raw) raw :=
  subseg_trans (cuts_subseg (primaryCut raw)) (primaryCut_subseg raw)
